import Mathlib

/-!
Verification of the bin-distribution planner of the `basebook-lb` front end.

The planner is the `getDistribution` memo in the add-liquidity component
(`src/unnamed/part_001`, lines 245-372) together with the re-derivation of the
submitted distributions in `handleAddLiquidity` (lines 631-656).  The source is
TypeScript; JavaScript `number` values are modelled as exact real numbers
(`ℝ`), `BigInt` values as `ℤ`, and the decimal literal `0.1` as the rational
`1/10`.  `Math.exp` is modelled by `Real.exp` and `Math.floor` by `Int.floor`.
All of the claims settled below are robust to the difference between IEEE-754
doubles and exact reals: the fixed-point sums are forced structurally by the
final remainder correction, and every concrete floor that is evaluated is far
from an integer boundary.
-/

/-- The three liquidity strategies of `StrategyType` in `strategy-selector`:
`"spot"`, `"curve"` and `"bidask"`.  A closed enumeration. -/
inductive StrategyType : Type
  | spot : StrategyType
  | curve : StrategyType
  | bidask : StrategyType
deriving DecidableEq, Repr

/-- `PRECISION = 1e18`, the fixed-point scale (line 279 of the source). -/
def PRECISION : ℤ := 1000000000000000000

/-- `centerIndex = Math.floor(numBins / 2)` (line 248). -/
def centerIndex (numBins : ℕ) : ℕ := numBins / 2

/-- `deltaIds = Array.from({length: numBins}, (_, i) => i - Math.floor(numBins / 2))`
(line 247). -/
def deltaIdsOf (numBins : ℕ) : List ℤ :=
  (List.range numBins).map (fun (i : ℕ) => (i : ℤ) - (centerIndex numBins : ℤ))

/-- The raw per-bin weight of the strategy `switch` (lines 253-274):
`spot` is 1 for every bin, `curve` is
`Math.exp (-(x*x) / (2*sigma*sigma))` with `x = i - numBins/2` and
`sigma = numBins/4`, and `bidask` is `normalized^2 + 0.1` with
`normalized = (i - (numBins-1)/2) / ((numBins-1)/2)`.  All divisions are
JavaScript float divisions, modelled as real division. -/
noncomputable def rawWeight (s : StrategyType) (numBins : ℕ) (i : ℕ) : ℝ :=
  match s with
  | .spot => 1
  | .curve =>
      Real.exp (-(((i : ℝ) - (numBins : ℝ) / 2) * ((i : ℝ) - (numBins : ℝ) / 2)) /
        (2 * ((numBins : ℝ) / 4) * ((numBins : ℝ) / 4)))
  | .bidask =>
      (((i : ℝ) - ((numBins : ℝ) - 1) / 2) / (((numBins : ℝ) - 1) / 2)) *
        (((i : ℝ) - ((numBins : ℝ) - 1) / 2) / (((numBins : ℝ) - 1) / 2)) + 0.1

/-- The `weights` array filled by the strategy `switch` (lines 251-274). -/
noncomputable def weights (s : StrategyType) (numBins : ℕ) : List ℝ :=
  (List.range numBins).map (rawWeight s numBins)

/-- The first-pass `weightsX` array (lines 309-329): bins with `deltaId < 0`
contribute `0`, bins with `deltaId > 0` contribute their whole weight, and the
active bin contributes `weight / 2`. -/
noncomputable def weightsX (s : StrategyType) (numBins : ℕ) : List ℝ :=
  (List.range numBins).map (fun (i : ℕ) =>
    if (i : ℤ) - (centerIndex numBins : ℤ) < 0 then 0
    else if 0 < (i : ℤ) - (centerIndex numBins : ℤ) then rawWeight s numBins i
    else rawWeight s numBins i / 2)

/-- The first-pass `weightsY` array (lines 309-329), mirror image of
`weightsX`. -/
noncomputable def weightsY (s : StrategyType) (numBins : ℕ) : List ℝ :=
  (List.range numBins).map (fun (i : ℕ) =>
    if (i : ℤ) - (centerIndex numBins : ℤ) < 0 then rawWeight s numBins i
    else if 0 < (i : ℤ) - (centerIndex numBins : ℤ) then 0
    else rawWeight s numBins i / 2)

/-- One normalized entry (lines 338-341): `Math.floor(ratio * 1e9)` scaled by a
second factor of `1e9`, where `ratio = w / sum`. -/
noncomputable def scaleTo (w sum : ℝ) : ℤ :=
  ⌊w / sum * 1000000000⌋ * 1000000000

/-- Per-side normalization (lines 336-351): zero weights stay the string
`"0"`, nonzero weights are scaled against the side's sum. -/
noncomputable def normalizeSide (ws : List ℝ) : List ℤ :=
  ws.map (fun w => if w = 0 then 0 else scaleTo w ws.sum)

/-- The combined normalization of lines 282-299.  The source computes this
`normalizedWeights` array (with the truncation remainder pushed onto the
center index) but never uses it in the value it returns; it is kept here for
fidelity only. -/
noncomputable def normalizedWeights (s : StrategyType) (numBins : ℕ) : List ℤ :=
  let nw : List ℤ := (weights s numBins).map (fun w => scaleTo w (weights s numBins).sum)
  let diff : ℤ := PRECISION - nw.sum
  if diff ≠ 0 ∧ 0 < nw.length then
    nw.set (centerIndex numBins) (nw.getD (centerIndex numBins) 0 + diff)
  else nw

/-- `findIndex(v => v !== "0")` (lines 358-359), returning `none` for `-1`. -/
def findNonZeroIdx : List ℤ → Option ℕ
  | [] => none
  | x :: xs => if x ≠ 0 then some 0 else (findNonZeroIdx xs).map (· + 1)

/-- The remainder correction of lines 353-369: if the side has a nonzero
entry, the first such entry absorbs `PRECISION - currentSum`. -/
def adjustSide (l : List ℤ) : List ℤ :=
  match findNonZeroIdx l with
  | none => l
  | some i => l.set i (l.getD i 0 + (PRECISION - l.sum))

/-- The object returned by `getDistribution` (line 371). -/
structure BinPlan where
  deltaIds : List ℤ
  distributionX : List ℤ
  distributionY : List ℤ
  numBins : ℕ
deriving Repr

/-- The planner generalized over `numBins`; the source fixes
`const numBins = 10` (line 246) and never validates it. -/
noncomputable def getDistributionN (s : StrategyType) (numBins : ℕ) : BinPlan :=
  BinPlan.mk (deltaIdsOf numBins)
    (adjustSide (normalizeSide (weightsX s numBins)))
    (adjustSide (normalizeSide (weightsY s numBins)))
    numBins

/-- `getDistribution` (lines 245-372): the planner at the hard-coded
`numBins = 10`. -/
noncomputable def getDistribution (s : StrategyType) : BinPlan :=
  getDistributionN s 10

/-- Abbreviation for the X-side raw sum `sumX` (line 332). -/
noncomputable def sumSideX (s : StrategyType) : ℝ := (weightsX s 10).sum

/-- Abbreviation for the Y-side raw sum `sumY` (line 333). -/
noncomputable def sumSideY (s : StrategyType) : ℝ := (weightsY s 10).sum

/-- `baseWeights` of `handleAddLiquidity` (lines 637-641): the per-bin sum of
the planner's two sides. -/
def baseWeights (plan : BinPlan) : List ℤ :=
  plan.distributionX.zipWith (· + ·) plan.distributionY

/-- The `finalDistributionX` array submitted by `handleAddLiquidity`
(lines 643-656): the whole `baseWeights` entry when `deltaId >= 0`, else 0. -/
def finalDistributionX (plan : BinPlan) : List ℤ :=
  (plan.deltaIds.zip (baseWeights plan)).map (fun p => if p.1 < 0 then 0 else p.2)

/-- The `finalDistributionY` array submitted by `handleAddLiquidity`
(lines 643-656): the whole `baseWeights` entry when `deltaId < 0`, else 0. -/
def finalDistributionY (plan : BinPlan) : List ℤ :=
  (plan.deltaIds.zip (baseWeights plan)).map (fun p => if p.1 < 0 then p.2 else 0)

theorem list_getD_set_ne (l : List ℤ) (i j : ℕ) (a : ℤ) (h : i ≠ j) :
    (l.set i a).getD j 0 = l.getD j 0 := by
  induction l generalizing i j with
  | nil => simp
  | cons x xs ih =>
    cases i with
    | zero =>
      cases j with
      | zero => exact absurd rfl h
      | succ j => simp [List.set, List.getD]
    | succ i =>
      cases j with
      | zero => simp [List.set, List.getD]
      | succ j =>
        simp only [List.set, List.getD_cons_succ]
        exact ih i j (by omega)

theorem list_getD_set_self (l : List ℤ) (i : ℕ) (a : ℤ) (h : i < l.length) :
    (l.set i a).getD i 0 = a := by
  induction l generalizing i with
  | nil => simp at h
  | cons x xs ih =>
    cases i with
    | zero => simp [List.set]
    | succ i =>
      simp only [List.set, List.getD_cons_succ]
      exact ih i (by simpa using h)

theorem list_sum_set_getD (l : List ℤ) (i : ℕ) (a : ℤ) (h : i < l.length) :
    (l.set i a).sum = l.sum - l.getD i 0 + a := by
  induction l generalizing i with
  | nil => simp at h
  | cons x xs ih =>
    cases i with
    | zero => simp [List.set]; ring
    | succ i =>
      simp only [List.set, List.sum_cons, List.getD_cons_succ]
      rw [ih i (by simpa using h)]
      ring

theorem findNonZeroIdx_eq_none (l : List ℤ) (h : findNonZeroIdx l = none) :
    ∀ x ∈ l, x = 0 := by
  induction l with
  | nil => simp
  | cons x xs ih =>
    by_cases hx : x ≠ 0
    · simp [findNonZeroIdx, hx] at h
    · push_neg at hx
      subst hx
      simp only [findNonZeroIdx, ne_eq, not_true_eq_false, if_false,
        Option.map_eq_none'] at h
      intro y hy
      rcases List.mem_cons.mp hy with rfl | hy
      · rfl
      · exact ih h y hy

theorem findNonZeroIdx_eq_some (l : List ℤ) (i : ℕ) (h : findNonZeroIdx l = some i) :
    i < l.length ∧ l.getD i 0 ≠ 0 := by
  induction l generalizing i with
  | nil => simp [findNonZeroIdx] at h
  | cons x xs ih =>
    by_cases hx : x ≠ 0
    · simp only [findNonZeroIdx, if_pos hx, Option.some.injEq] at h
      subst h
      simpa using hx
    · push_neg at hx
      subst hx
      simp only [findNonZeroIdx, ne_eq, not_true_eq_false, if_false,
        Option.map_eq_some'] at h
      obtain ⟨k, hk, rfl⟩ := h
      obtain ⟨h1, h2⟩ := ih k hk
      refine ⟨by simpa using Nat.succ_lt_succ h1, ?_⟩
      simpa [List.getD_cons_succ] using h2

theorem adjustSide_length (l : List ℤ) : (adjustSide l).length = l.length := by
  unfold adjustSide
  cases findNonZeroIdx l <;> simp


theorem adjustSide_sum_of_some (l : List ℤ) (i : ℕ) (h : findNonZeroIdx l = some i) :
    (adjustSide l).sum = PRECISION := by
  obtain ⟨hlen, _⟩ := findNonZeroIdx_eq_some l i h
  unfold adjustSide
  rw [h, list_sum_set_getD l i _ hlen]
  ring

theorem adjustSide_getD_eq_zero (l : List ℤ) (j : ℕ) (h : l.getD j 0 = 0) :
    (adjustSide l).getD j 0 = 0 := by
  unfold adjustSide
  cases hf : findNonZeroIdx l with
  | none => exact h
  | some i =>
    obtain ⟨hlen, hne⟩ := findNonZeroIdx_eq_some l i hf
    rw [list_getD_set_ne l i j _ (by intro hij; subst hij; exact hne h)]
    exact h

theorem adjustSide_of_none (l : List ℤ) (h : findNonZeroIdx l = none) :
    adjustSide l = l := by
  unfold adjustSide
  rw [h]

theorem adjustSide_exists_nonzero (l : List ℤ)
    (h : ∃ x ∈ adjustSide l, x ≠ 0) : ∃ i, findNonZeroIdx l = some i := by
  cases hf : findNonZeroIdx l with
  | none =>
    exfalso
    obtain ⟨x, hx, hxne⟩ := h
    rw [adjustSide_of_none l hf] at hx
    exact hxne (findNonZeroIdx_eq_none l hf x hx)
  | some i => exact ⟨i, rfl⟩

theorem normalizeSide_length (ws : List ℝ) : (normalizeSide ws).length = ws.length := by
  simp [normalizeSide]

theorem rawWeight_pos (s : StrategyType) (n i : ℕ) : 0 < rawWeight s n i := by
  cases s with
  | spot => norm_num [rawWeight]
  | curve => exact Real.exp_pos _
  | bidask =>
    unfold rawWeight
    nlinarith [mul_self_nonneg
      (((i : ℝ) - ((n : ℝ) - 1) / 2) / (((n : ℝ) - 1) / 2))]

theorem weightsX_ten (s : StrategyType) :
    weightsX s 10 = [0, 0, 0, 0, 0, rawWeight s 10 5 / 2,
      rawWeight s 10 6, rawWeight s 10 7, rawWeight s 10 8, rawWeight s 10 9] := by
  unfold weightsX centerIndex
  rw [show List.range 10 = [0, 1, 2, 3, 4, 5, 6, 7, 8, 9] from rfl]
  norm_num

theorem weightsY_ten (s : StrategyType) :
    weightsY s 10 = [rawWeight s 10 0, rawWeight s 10 1, rawWeight s 10 2,
      rawWeight s 10 3, rawWeight s 10 4, rawWeight s 10 5 / 2, 0, 0, 0, 0] := by
  unfold weightsY centerIndex
  rw [show List.range 10 = [0, 1, 2, 3, 4, 5, 6, 7, 8, 9] from rfl]
  norm_num

theorem curve_exponent_nonpos (i : ℕ) :
    -(((i : ℝ) - (10 : ℝ) / 2) * ((i : ℝ) - (10 : ℝ) / 2)) /
      (2 * ((10 : ℝ) / 4) * ((10 : ℝ) / 4)) ≤ 0 := by
  apply div_nonpos_of_nonpos_of_nonneg
  · simpa using mul_self_nonneg ((i : ℝ) - (10 : ℝ) / 2)
  · norm_num

theorem rawWeight_le_ten (s : StrategyType) (i : ℕ) (h : i < 10) :
    rawWeight s 10 i ≤ 11 / 10 := by
  cases s with
  | spot => norm_num [rawWeight]
  | curve =>
    unfold rawWeight
    calc Real.exp _ ≤ Real.exp 0 := Real.exp_le_exp.mpr (curve_exponent_nonpos i)
    _ = 1 := Real.exp_zero
    _ ≤ 11 / 10 := by norm_num
  | bidask =>
    interval_cases i <;> norm_num [rawWeight]

theorem rawWeight_five_ge (s : StrategyType) : 1 / 10 ≤ rawWeight s 10 5 := by
  cases s with
  | spot => norm_num [rawWeight]
  | curve =>
    have e : rawWeight .curve 10 5 = Real.exp 0 := by
      simp only [rawWeight]
      congr 1
      norm_num
    rw [e, Real.exp_zero]
    norm_num
  | bidask => norm_num [rawWeight]

theorem exp_neg_two_gt : 1 / 9 < Real.exp (-2) := by
  have h2 : Real.exp 2 = Real.exp 1 * Real.exp 1 := by
    rw [← Real.exp_add]
    norm_num
  have h1 : Real.exp 1 < 2.7182818286 := Real.exp_one_lt_d9
  have hpos : (0 : ℝ) < Real.exp 1 := Real.exp_pos 1
  have h9 : Real.exp 2 < 9 := by nlinarith
  have hp2 : (0 : ℝ) < Real.exp 2 := Real.exp_pos 2
  rw [Real.exp_neg]
  rw [lt_inv_comm₀ (by norm_num) hp2]
  simpa using h9

theorem rawWeight_zero_ge (s : StrategyType) : 1 / 9 ≤ rawWeight s 10 0 := by
  cases s with
  | spot => norm_num [rawWeight]
  | curve =>
    have e : rawWeight .curve 10 0 = Real.exp (-2) := by
      simp only [rawWeight]
      congr 1
      norm_num
    rw [e]
    exact le_of_lt exp_neg_two_gt
  | bidask => norm_num [rawWeight]

theorem normX_ten (s : StrategyType) :
    normalizeSide (weightsX s 10) =
      [0, 0, 0, 0, 0,
       scaleTo (rawWeight s 10 5 / 2) (sumSideX s),
       scaleTo (rawWeight s 10 6) (sumSideX s),
       scaleTo (rawWeight s 10 7) (sumSideX s),
       scaleTo (rawWeight s 10 8) (sumSideX s),
       scaleTo (rawWeight s 10 9) (sumSideX s)] := by
  have n5 : rawWeight s 10 5 / 2 ≠ 0 := ne_of_gt (by linarith [rawWeight_pos s 10 5])
  have n6 : rawWeight s 10 6 ≠ 0 := ne_of_gt (rawWeight_pos s 10 6)
  have n7 : rawWeight s 10 7 ≠ 0 := ne_of_gt (rawWeight_pos s 10 7)
  have n8 : rawWeight s 10 8 ≠ 0 := ne_of_gt (rawWeight_pos s 10 8)
  have n9 : rawWeight s 10 9 ≠ 0 := ne_of_gt (rawWeight_pos s 10 9)
  unfold normalizeSide sumSideX
  rw [weightsX_ten]
  simp [n5, n6, n7, n8, n9]

theorem normY_ten (s : StrategyType) :
    normalizeSide (weightsY s 10) =
      [scaleTo (rawWeight s 10 0) (sumSideY s),
       scaleTo (rawWeight s 10 1) (sumSideY s),
       scaleTo (rawWeight s 10 2) (sumSideY s),
       scaleTo (rawWeight s 10 3) (sumSideY s),
       scaleTo (rawWeight s 10 4) (sumSideY s),
       scaleTo (rawWeight s 10 5 / 2) (sumSideY s),
       0, 0, 0, 0] := by
  have n0 : rawWeight s 10 0 ≠ 0 := ne_of_gt (rawWeight_pos s 10 0)
  have n1 : rawWeight s 10 1 ≠ 0 := ne_of_gt (rawWeight_pos s 10 1)
  have n2 : rawWeight s 10 2 ≠ 0 := ne_of_gt (rawWeight_pos s 10 2)
  have n3 : rawWeight s 10 3 ≠ 0 := ne_of_gt (rawWeight_pos s 10 3)
  have n4 : rawWeight s 10 4 ≠ 0 := ne_of_gt (rawWeight_pos s 10 4)
  have n5 : rawWeight s 10 5 / 2 ≠ 0 := ne_of_gt (by linarith [rawWeight_pos s 10 5])
  unfold normalizeSide sumSideY
  rw [weightsY_ten]
  simp [n0, n1, n2, n3, n4, n5]

theorem sumSideX_pos (s : StrategyType) : 0 < sumSideX s := by
  unfold sumSideX
  rw [weightsX_ten]
  have h5 := rawWeight_pos s 10 5
  have h6 := rawWeight_pos s 10 6
  have h7 := rawWeight_pos s 10 7
  have h8 := rawWeight_pos s 10 8
  have h9 := rawWeight_pos s 10 9
  simp only [List.sum_cons, List.sum_nil]
  linarith

theorem sumSideX_le (s : StrategyType) : sumSideX s ≤ 99 / 20 := by
  unfold sumSideX
  rw [weightsX_ten]
  have h5 := rawWeight_le_ten s 5 (by norm_num)
  have h6 := rawWeight_le_ten s 6 (by norm_num)
  have h7 := rawWeight_le_ten s 7 (by norm_num)
  have h8 := rawWeight_le_ten s 8 (by norm_num)
  have h9 := rawWeight_le_ten s 9 (by norm_num)
  simp only [List.sum_cons, List.sum_nil]
  linarith

theorem sumSideY_pos (s : StrategyType) : 0 < sumSideY s := by
  unfold sumSideY
  rw [weightsY_ten]
  have h0 := rawWeight_pos s 10 0
  have h1 := rawWeight_pos s 10 1
  have h2 := rawWeight_pos s 10 2
  have h3 := rawWeight_pos s 10 3
  have h4 := rawWeight_pos s 10 4
  have h5 := rawWeight_pos s 10 5
  simp only [List.sum_cons, List.sum_nil]
  linarith

theorem sumSideY_le (s : StrategyType) : sumSideY s ≤ 121 / 20 := by
  unfold sumSideY
  rw [weightsY_ten]
  have h0 := rawWeight_le_ten s 0 (by norm_num)
  have h1 := rawWeight_le_ten s 1 (by norm_num)
  have h2 := rawWeight_le_ten s 2 (by norm_num)
  have h3 := rawWeight_le_ten s 3 (by norm_num)
  have h4 := rawWeight_le_ten s 4 (by norm_num)
  have h5 := rawWeight_le_ten s 5 (by norm_num)
  simp only [List.sum_cons, List.sum_nil]
  linarith

theorem scaleTo_pos (w S : ℝ) (_hw : 0 < w) (hS : 0 < S) (h : S ≤ w * 1000000000) :
    0 < scaleTo w S := by
  unfold scaleTo
  have h1 : (1 : ℤ) ≤ ⌊w / S * 1000000000⌋ := by
    rw [Int.le_floor]
    rw [div_mul_eq_mul_div, le_div_iff₀ hS]
    push_cast
    linarith
  nlinarith

theorem normX_entry5_pos (s : StrategyType) :
    0 < scaleTo (rawWeight s 10 5 / 2) (sumSideX s) := by
  have h5 := rawWeight_five_ge s
  refine scaleTo_pos _ _ (by linarith [rawWeight_pos s 10 5]) (sumSideX_pos s) ?_
  have := sumSideX_le s
  linarith

theorem normY_entry0_pos (s : StrategyType) :
    0 < scaleTo (rawWeight s 10 0) (sumSideY s) := by
  have h0 := rawWeight_zero_ge s
  refine scaleTo_pos _ _ (by linarith [rawWeight_pos s 10 0]) (sumSideY_pos s) ?_
  have := sumSideY_le s
  linarith

theorem findNonZeroIdx_normX (s : StrategyType) :
    findNonZeroIdx (normalizeSide (weightsX s 10)) = some 5 := by
  rw [normX_ten]
  simp [findNonZeroIdx, (normX_entry5_pos s).ne']

theorem findNonZeroIdx_normY (s : StrategyType) :
    findNonZeroIdx (normalizeSide (weightsY s 10)) = some 0 := by
  rw [normY_ten]
  simp [findNonZeroIdx, (normY_entry0_pos s).ne']

theorem distributionX_ten (s : StrategyType) :
    (getDistribution s).distributionX =
      [0, 0, 0, 0, 0,
       scaleTo (rawWeight s 10 5 / 2) (sumSideX s) +
         (PRECISION - (normalizeSide (weightsX s 10)).sum),
       scaleTo (rawWeight s 10 6) (sumSideX s),
       scaleTo (rawWeight s 10 7) (sumSideX s),
       scaleTo (rawWeight s 10 8) (sumSideX s),
       scaleTo (rawWeight s 10 9) (sumSideX s)] := by
  show adjustSide (normalizeSide (weightsX s 10)) = _
  unfold adjustSide
  rw [findNonZeroIdx_normX s, normX_ten s]
  simp [List.set, List.getD]

theorem distributionY_ten (s : StrategyType) :
    (getDistribution s).distributionY =
      [scaleTo (rawWeight s 10 0) (sumSideY s) +
         (PRECISION - (normalizeSide (weightsY s 10)).sum),
       scaleTo (rawWeight s 10 1) (sumSideY s),
       scaleTo (rawWeight s 10 2) (sumSideY s),
       scaleTo (rawWeight s 10 3) (sumSideY s),
       scaleTo (rawWeight s 10 4) (sumSideY s),
       scaleTo (rawWeight s 10 5 / 2) (sumSideY s),
       0, 0, 0, 0] := by
  show adjustSide (normalizeSide (weightsY s 10)) = _
  unfold adjustSide
  rw [findNonZeroIdx_normY s, normY_ten s]
  simp [List.set, List.getD]

theorem distributionX_sum (s : StrategyType) :
    (getDistribution s).distributionX.sum = PRECISION :=
  adjustSide_sum_of_some _ 5 (findNonZeroIdx_normX s)

theorem distributionY_sum (s : StrategyType) :
    (getDistribution s).distributionY.sum = PRECISION :=
  adjustSide_sum_of_some _ 0 (findNonZeroIdx_normY s)

theorem rawWeight_spot (n i : ℕ) : rawWeight .spot n i = 1 := rfl

theorem sumSideX_spot : sumSideX .spot = 9 / 2 := by
  unfold sumSideX
  rw [weightsX_ten]
  simp [rawWeight_spot]
  norm_num

theorem sumSideY_spot : sumSideY .spot = 11 / 2 := by
  unfold sumSideY
  rw [weightsY_ten]
  simp [rawWeight_spot]
  norm_num

theorem spot_distributionX :
    (getDistribution .spot).distributionX =
      [0, 0, 0, 0, 0, 111111112000000000, 222222222000000000,
       222222222000000000, 222222222000000000, 222222222000000000] := by
  rw [distributionX_ten, normX_ten]
  rw [sumSideX_spot]
  simp only [rawWeight_spot, List.sum_cons, List.sum_nil]
  have e1 : scaleTo (1 / 2 : ℝ) (9 / 2) = 111111111000000000 := by
    unfold scaleTo
    norm_num
  have e2 : scaleTo (1 : ℝ) (9 / 2) = 222222222000000000 := by
    unfold scaleTo
    norm_num
  rw [e1, e2]
  norm_num [PRECISION]

theorem spot_distributionY :
    (getDistribution .spot).distributionY =
      [181818186000000000, 181818181000000000, 181818181000000000,
       181818181000000000, 181818181000000000, 90909090000000000, 0, 0, 0, 0] := by
  rw [distributionY_ten, normY_ten]
  rw [sumSideY_spot]
  simp only [rawWeight_spot, List.sum_cons, List.sum_nil]
  have e1 : scaleTo (1 : ℝ) (11 / 2) = 181818181000000000 := by
    unfold scaleTo
    norm_num
  have e2 : scaleTo (1 / 2 : ℝ) (11 / 2) = 90909090000000000 := by
    unfold scaleTo
    norm_num
  rw [e1, e2]
  norm_num [PRECISION]

theorem rawWeight_curve_zero : rawWeight .curve 10 0 = Real.exp (-2) := by
  simp only [rawWeight]
  congr 1
  norm_num

theorem rawWeight_curve_one : rawWeight .curve 10 1 = Real.exp (-(32 / 25)) := by
  simp only [rawWeight]
  congr 1
  norm_num

theorem rawWeight_curve_two : rawWeight .curve 10 2 = Real.exp (-(18 / 25)) := by
  simp only [rawWeight]
  congr 1
  norm_num

theorem rawWeight_curve_three : rawWeight .curve 10 3 = Real.exp (-(8 / 25)) := by
  simp only [rawWeight]
  congr 1
  norm_num

theorem rawWeight_curve_four : rawWeight .curve 10 4 = Real.exp (-(2 / 25)) := by
  simp only [rawWeight]
  congr 1
  norm_num

theorem rawWeight_curve_five : rawWeight .curve 10 5 = 1 := by
  have e : rawWeight .curve 10 5 = Real.exp 0 := by
    simp only [rawWeight]
    congr 1
    norm_num
  rw [e, Real.exp_zero]

theorem rawWeight_curve_six : rawWeight .curve 10 6 = Real.exp (-(2 / 25)) := by
  simp only [rawWeight]
  congr 1
  norm_num

theorem rawWeight_curve_seven : rawWeight .curve 10 7 = Real.exp (-(8 / 25)) := by
  simp only [rawWeight]
  congr 1
  norm_num

theorem rawWeight_curve_eight : rawWeight .curve 10 8 = Real.exp (-(18 / 25)) := by
  simp only [rawWeight]
  congr 1
  norm_num

theorem rawWeight_curve_nine : rawWeight .curve 10 9 = Real.exp (-(32 / 25)) := by
  simp only [rawWeight]
  congr 1
  norm_num

theorem one_sub_le_exp_neg (x : ℝ) : 1 - x ≤ Real.exp (-x) := by
  have h := Real.add_one_le_exp (-x)
  linarith

theorem exp_neg_le_inv_one_add (x : ℝ) (hx : 0 ≤ x) : Real.exp (-x) ≤ 1 / (1 + x) := by
  have h1 : 1 + x ≤ Real.exp x := by linarith [Real.add_one_le_exp x]
  have h2 : (0 : ℝ) < 1 + x := by linarith
  rw [Real.exp_neg, one_div]
  exact inv_anti₀ h2 h1

theorem weights_curve_sum :
    (weights .curve 10).sum =
      Real.exp (-2) + 2 * Real.exp (-(32 / 25)) + 2 * Real.exp (-(18 / 25)) +
        2 * Real.exp (-(8 / 25)) + 2 * Real.exp (-(2 / 25)) + 1 := by
  unfold weights
  rw [show List.range 10 = [0, 1, 2, 3, 4, 5, 6, 7, 8, 9] from rfl]
  simp only [List.map, List.sum_cons, List.sum_nil, rawWeight_curve_zero,
    rawWeight_curve_one, rawWeight_curve_two, rawWeight_curve_three,
    rawWeight_curve_four, rawWeight_curve_five, rawWeight_curve_six,
    rawWeight_curve_seven, rawWeight_curve_eight, rawWeight_curve_nine]
  ring

theorem deltaIds_ten (s : StrategyType) :
    (getDistribution s).deltaIds = [-5, -4, -3, -2, -1, 0, 1, 2, 3, 4] := by
  show deltaIdsOf 10 = _
  decide

/-- C1: for every strategy (and in fact every bin count), each side of the
distribution returned by the planner sums to exactly `PRECISION = 10^18`
whenever that side has any nonzero entry. -/
theorem claim1_sum_precision (s : StrategyType) (n : ℕ) :
    ((∃ x ∈ (getDistributionN s n).distributionX, x ≠ 0) →
      (getDistributionN s n).distributionX.sum = PRECISION) ∧
    ((∃ x ∈ (getDistributionN s n).distributionY, x ≠ 0) →
      (getDistributionN s n).distributionY.sum = PRECISION) := by
  constructor
  · intro h
    obtain ⟨i, hi⟩ := adjustSide_exists_nonzero (normalizeSide (weightsX s n)) h
    exact adjustSide_sum_of_some _ i hi
  · intro h
    obtain ⟨i, hi⟩ := adjustSide_exists_nonzero (normalizeSide (weightsY s n)) h
    exact adjustSide_sum_of_some _ i hi

/-- Witness for C1 at the spot strategy and the code's `numBins = 10`. -/
theorem claim1_sum_precision_witness :
    (∃ x ∈ (getDistributionN .spot 10).distributionX, x ≠ 0) ∧
    (∃ x ∈ (getDistributionN .spot 10).distributionY, x ≠ 0) ∧
    (getDistributionN .spot 10).distributionX.sum = PRECISION ∧
    (getDistributionN .spot 10).distributionY.sum = PRECISION := by
  have hx : ∃ x ∈ (getDistributionN .spot 10).distributionX, x ≠ 0 := by
    show ∃ x ∈ (getDistribution .spot).distributionX, x ≠ 0
    rw [spot_distributionX]
    refine ⟨222222222000000000, by norm_num, by norm_num⟩
  have hy : ∃ x ∈ (getDistributionN .spot 10).distributionY, x ≠ 0 := by
    show ∃ x ∈ (getDistribution .spot).distributionY, x ≠ 0
    rw [spot_distributionY]
    refine ⟨90909090000000000, by norm_num, by norm_num⟩
  exact ⟨hx, hy, (claim1_sum_precision .spot 10).1 hx,
    (claim1_sum_precision .spot 10).2 hy⟩

/-- C2: for every strategy, bins strictly below the active bin carry no X
distribution, bins strictly above carry no Y distribution, index 5 is the
unique bin with `deltaId = 0`, and it is the only index where both sides may
be simultaneously positive. -/
theorem claim2_side_partition (s : StrategyType) (i : ℕ) (h : i < 10) :
    ((getDistribution s).deltaIds.getD i 0 < 0 →
      (getDistribution s).distributionX.getD i 0 = 0) ∧
    (0 < (getDistribution s).deltaIds.getD i 0 →
      (getDistribution s).distributionY.getD i 0 = 0) ∧
    ((getDistribution s).deltaIds.getD i 0 = 0 ↔ i = 5) ∧
    (i ≠ 5 → ¬(0 < (getDistribution s).distributionX.getD i 0 ∧
               0 < (getDistribution s).distributionY.getD i 0)) := by
  have hdx := distributionX_ten s
  have hdy := distributionY_ten s
  have hd := deltaIds_ten s
  interval_cases i <;>
    simp [hdx, hdy, hd, List.getD]

/-- Witness for C2 at the spot strategy and bin index 0. -/
theorem claim2_side_partition_witness :
    (0 : ℕ) < 10 ∧
    (((getDistribution .spot).deltaIds.getD 0 0 < 0 →
        (getDistribution .spot).distributionX.getD 0 0 = 0) ∧
      (0 < (getDistribution .spot).deltaIds.getD 0 0 →
        (getDistribution .spot).distributionY.getD 0 0 = 0) ∧
      ((getDistribution .spot).deltaIds.getD 0 0 = 0 ↔ (0 : ℕ) = 5) ∧
      ((0 : ℕ) ≠ 5 → ¬(0 < (getDistribution .spot).distributionX.getD 0 0 ∧
                 0 < (getDistribution .spot).distributionY.getD 0 0))) :=
  ⟨by norm_num, claim2_side_partition .spot 0 (by norm_num)⟩

/-- C3: `handleAddLiquidity` recomputes the submitted distributions by
summing the planner's two sides per bin and assigning the whole sum to the
X side when `deltaId >= 0` and to the Y side when `deltaId < 0`.  Hence the
submitted Y entry at the active bin is zero, the submitted X side sums to
`PRECISION` plus the planner's active-bin Y allocation, and the submitted
Y side sums to `PRECISION` minus that allocation, for every strategy. -/
theorem claim3_final_distributions (s : StrategyType) :
    (finalDistributionY (getDistribution s)).length = 10 ∧
    (finalDistributionY (getDistribution s)).getD 5 0 = 0 ∧
    (finalDistributionX (getDistribution s)).sum =
      PRECISION + (getDistribution s).distributionY.getD 5 0 ∧
    (finalDistributionY (getDistribution s)).sum =
      PRECISION - (getDistribution s).distributionY.getD 5 0 := by
  have hdx := distributionX_ten s
  have hdy := distributionY_ten s
  have hd := deltaIds_ten s
  refine ⟨?_, ?_, ?_, ?_⟩
  · simp [finalDistributionY, baseWeights, hdx, hdy, hd]
  · simp [finalDistributionY, baseWeights, hdx, hdy, hd, List.getD]
  · rw [← distributionX_sum s]
    simp [finalDistributionX, baseWeights, hdx, hdy, hd, List.getD]
    ring
  · rw [← distributionY_sum s]
    simp [finalDistributionY, baseWeights, hdx, hdy, hd, List.getD]
    ring

theorem scaleTo_one_eleven_halves : scaleTo (1 : ℝ) (11 / 2) = 181818181000000000 := by
  unfold scaleTo
  norm_num

theorem scaleTo_half_eleven_halves : scaleTo (1 / 2 : ℝ) (11 / 2) = 90909090000000000 := by
  unfold scaleTo
  norm_num

theorem spot_normY :
    normalizeSide (weightsY .spot 10) =
      [181818181000000000, 181818181000000000, 181818181000000000,
       181818181000000000, 181818181000000000, 90909090000000000, 0, 0, 0, 0] := by
  rw [normY_ten, sumSideY_spot]
  simp only [rawWeight_spot]
  rw [scaleTo_one_eleven_halves, scaleTo_half_eleven_halves]

/-- Counterexample to C4: for the spot strategy the Y-side truncation
remainder is `5 * 10^9` and the active-bin entry of the truncated Y side is
nonzero (`90909090000000000`), yet the remainder is added to index 0 — the
first nonzero entry of the side — and the active-bin entry is returned
unchanged.  The active bin does not absorb its side's remainder. -/
theorem claim4_remainder_counterexample :
    PRECISION - (normalizeSide (weightsY .spot 10)).sum = 5000000000 ∧
    (normalizeSide (weightsY .spot 10)).getD 5 0 = 90909090000000000 ∧
    (90909090000000000 : ℤ) ≠ 0 ∧
    (getDistribution .spot).distributionY.getD 5 0 = 90909090000000000 ∧
    (getDistribution .spot).distributionY.getD 0 0 =
      (normalizeSide (weightsY .spot 10)).getD 0 0 + 5000000000 := by
  rw [spot_normY, spot_distributionY]
  refine ⟨by decide, by decide, by decide, by decide, by decide⟩

/-- C4 amended: on each side the truncation remainder is added to the first
nonzero entry of that side, regardless of the active bin.  On the X side the
first nonzero entry is index 5, which is the active bin; on the Y side it is
index 0, whose `deltaId` is `-5`, not the active bin. -/
theorem claim4_remainder_first_nonzero (s : StrategyType) :
    findNonZeroIdx (normalizeSide (weightsX s 10)) = some 5 ∧
    findNonZeroIdx (normalizeSide (weightsY s 10)) = some 0 ∧
    (getDistribution s).distributionX =
      (normalizeSide (weightsX s 10)).set 5
        ((normalizeSide (weightsX s 10)).getD 5 0 +
          (PRECISION - (normalizeSide (weightsX s 10)).sum)) ∧
    (getDistribution s).distributionY =
      (normalizeSide (weightsY s 10)).set 0
        ((normalizeSide (weightsY s 10)).getD 0 0 +
          (PRECISION - (normalizeSide (weightsY s 10)).sum)) ∧
    (getDistribution s).deltaIds.getD 5 0 = 0 ∧
    (getDistribution s).deltaIds.getD 0 0 ≠ 0 := by
  refine ⟨findNonZeroIdx_normX s, findNonZeroIdx_normY s, ?_, ?_,
    by rw [deltaIds_ten s]; decide, by rw [deltaIds_ten s]; decide⟩
  · show adjustSide (normalizeSide (weightsX s 10)) = _
    unfold adjustSide
    rw [findNonZeroIdx_normX s]
  · show adjustSide (normalizeSide (weightsY s 10)) = _
    unfold adjustSide
    rw [findNonZeroIdx_normY s]

/-- Counterexample to C5: the planner body evaluated with `numBins = 0`
returns an ordinary (empty) plan.  Its return type has no error case at all:
no `InvalidBinCount` or `InvalidStrategy` error exists anywhere in the code,
so nothing is raised and a distribution object is always produced. -/
theorem claim5_no_error_counterexample :
    getDistributionN .spot 0 = BinPlan.mk [] [] [] 0 := rfl

/-- C5 amended: the planner takes no `numBins` argument (the source
hard-codes `numBins = 10`) and performs no input validation: for every
strategy of the closed three-value enumeration and every bin count it totally
returns a plan with exactly `numBins` bins, and `getDistribution` is the
`numBins = 10` instance. -/
theorem claim5_planner_total (s : StrategyType) (n : ℕ) :
    (getDistributionN s n).deltaIds.length = n ∧
    (getDistributionN s n).distributionX.length = n ∧
    (getDistributionN s n).distributionY.length = n ∧
    (getDistributionN s n).numBins = n ∧
    getDistribution s = getDistributionN s 10 := by
  refine ⟨?_, ?_, ?_, rfl, rfl⟩
  · show (deltaIdsOf n).length = n
    unfold deltaIdsOf
    rw [List.length_map, List.length_range]
  · show (adjustSide (normalizeSide (weightsX s n))).length = n
    rw [adjustSide_length, normalizeSide_length]
    simp only [weightsX, List.length_map, List.length_range]
  · show (adjustSide (normalizeSide (weightsY s n))).length = n
    rw [adjustSide_length, normalizeSide_length]
    simp only [weightsY, List.length_map, List.length_range]

/-- Counterexample to C6: for the spot strategy the five negative-offset bins
do not receive equal `distributionY` values — bin 0 absorbs the truncation
remainder and holds `181818186000000000` while bin 1 holds
`181818181000000000`. -/
theorem claim6_spot_counterexample :
    (getDistribution .spot).deltaIds.getD 0 0 < 0 ∧
    (getDistribution .spot).deltaIds.getD 1 0 < 0 ∧
    (getDistribution .spot).distributionY.getD 0 0 = 181818186000000000 ∧
    (getDistribution .spot).distributionY.getD 1 0 = 181818181000000000 ∧
    (getDistribution .spot).distributionY.getD 0 0 ≠
      (getDistribution .spot).distributionY.getD 1 0 := by
  rw [spot_distributionY, deltaIds_ten]
  refine ⟨by decide, by decide, by decide, by decide, by decide⟩

/-- C6 amended: the spot plan at `numBins = 10` gives the four bins 1..4 the
equal nonzero Y value `181818181000000000` while bin 0 additionally absorbs
the remainder (`181818186000000000`), zero X below the active bin, the four
positive-offset bins the equal nonzero X value `222222222000000000` with zero
Y, half of the unit raw weight on each side of the active bin, and both sides
sum to exactly `10^18`. -/
theorem claim6_spot_plan :
    (getDistribution .spot).distributionX =
      [0, 0, 0, 0, 0, 111111112000000000, 222222222000000000,
       222222222000000000, 222222222000000000, 222222222000000000] ∧
    (getDistribution .spot).distributionY =
      [181818186000000000, 181818181000000000, 181818181000000000,
       181818181000000000, 181818181000000000, 90909090000000000, 0, 0, 0, 0] ∧
    (weightsX .spot 10).getD 5 0 = 1 / 2 ∧
    (weightsY .spot 10).getD 5 0 = 1 / 2 ∧
    (getDistribution .spot).distributionX.sum = PRECISION ∧
    (getDistribution .spot).distributionY.sum = PRECISION := by
  refine ⟨spot_distributionX, spot_distributionY, ?_, ?_,
    distributionX_sum .spot, distributionY_sum .spot⟩
  · rw [weightsX_ten]
    simp [List.getD, rawWeight_spot]
  · rw [weightsY_ten]
    simp [List.getD, rawWeight_spot]

theorem getD_range_map (f : ℕ → ℤ) (n i : ℕ) (h : i < n) :
    ((List.range n).map f).getD i 0 = f i := by
  rw [List.getD_eq_getElem?_getD, List.getElem?_map, List.getElem?_range h]
  rfl

/-- C7: the planner's `deltaIds` entry at index `i` is `i - floor(numBins/2)`
for every strategy and bin count; at the code's `numBins = 10` this is exactly
`[-5,...,4]`, which has exactly one zero (at index 5), and all three returned
lists have equal length. -/
theorem claim7_deltaIds :
    (∀ (s : StrategyType) (n i : ℕ), i < n →
      (getDistributionN s n).deltaIds.getD i 0 = (i : ℤ) - ((n / 2 : ℕ) : ℤ)) ∧
    (∀ s : StrategyType,
      (getDistribution s).deltaIds = [-5, -4, -3, -2, -1, 0, 1, 2, 3, 4] ∧
      (getDistribution s).deltaIds.length = (getDistribution s).distributionX.length ∧
      (getDistribution s).deltaIds.length = (getDistribution s).distributionY.length ∧
      (getDistribution s).deltaIds.count 0 = 1 ∧
      (getDistribution s).deltaIds.getD 5 0 = 0) := by
  constructor
  · intro s n i h
    exact getD_range_map _ n i h
  · intro s
    refine ⟨deltaIds_ten s, ?_, ?_, by rw [deltaIds_ten s]; decide,
      by rw [deltaIds_ten s]; decide⟩
    · rw [deltaIds_ten s, distributionX_ten s]
      simp
    · rw [deltaIds_ten s, distributionY_ten s]
      simp

/-- Witness for C7 at the spot strategy, `numBins = 10`, index 3. -/
theorem claim7_deltaIds_witness :
    (3 : ℕ) < 10 ∧
    (getDistributionN .spot 10).deltaIds.getD 3 0 = (3 : ℤ) - ((10 / 2 : ℕ) : ℤ) :=
  ⟨by norm_num, claim7_deltaIds.1 .spot 10 3 (by norm_num)⟩

/-- Counterexample to C8: at the code's `numBins = 10` the two bins adjacent
to the active bin (indices 4 and 6, raw weight `exp(-0.08)` each) carry
strictly less than 50% of the total raw pre-normalization weight. -/
theorem claim8_curve_counterexample :
    rawWeight .curve 10 4 + rawWeight .curve 10 6 <
      1 / 2 * (weights .curve 10).sum := by
  rw [rawWeight_curve_four, rawWeight_curve_six, weights_curve_sum]
  have h08u : Real.exp (-(2 / 25)) ≤ 1 / (1 + 2 / 25) :=
    exp_neg_le_inv_one_add (2 / 25) (by norm_num)
  have h32l : 1 - 8 / 25 ≤ Real.exp (-(8 / 25)) := one_sub_le_exp_neg _
  have h72l : 1 - 18 / 25 ≤ Real.exp (-(18 / 25)) := one_sub_le_exp_neg _
  have hp2 : 0 < Real.exp (-2) := Real.exp_pos _
  have hp128 : 0 < Real.exp (-(32 / 25)) := Real.exp_pos _
  norm_num at h08u h32l h72l ⊢
  linarith

/-- C8 amended: at the code's `numBins = 10` the two bins adjacent to the
active bin together carry at least 25% but strictly less than 50% of the
total raw pre-normalization weight of the BellCurve strategy. -/
theorem claim8_curve_concentration :
    1 / 4 * (weights .curve 10).sum ≤
      rawWeight .curve 10 4 + rawWeight .curve 10 6 ∧
    rawWeight .curve 10 4 + rawWeight .curve 10 6 <
      1 / 2 * (weights .curve 10).sum := by
  rw [rawWeight_curve_four, rawWeight_curve_six, weights_curve_sum]
  have h08u : Real.exp (-(2 / 25)) ≤ 1 / (1 + 2 / 25) :=
    exp_neg_le_inv_one_add (2 / 25) (by norm_num)
  have h08l : 1 - 2 / 25 ≤ Real.exp (-(2 / 25)) := one_sub_le_exp_neg _
  have h32l : 1 - 8 / 25 ≤ Real.exp (-(8 / 25)) := one_sub_le_exp_neg _
  have h32u : Real.exp (-(8 / 25)) ≤ 1 / (1 + 8 / 25) :=
    exp_neg_le_inv_one_add (8 / 25) (by norm_num)
  have h72l : 1 - 18 / 25 ≤ Real.exp (-(18 / 25)) := one_sub_le_exp_neg _
  have h72u : Real.exp (-(18 / 25)) ≤ 1 / (1 + 18 / 25) :=
    exp_neg_le_inv_one_add (18 / 25) (by norm_num)
  have h128u : Real.exp (-(32 / 25)) ≤ 1 / (1 + 32 / 25) :=
    exp_neg_le_inv_one_add (32 / 25) (by norm_num)
  have h2u : Real.exp (-(2 : ℝ)) ≤ 1 / (1 + 2) :=
    exp_neg_le_inv_one_add 2 (by norm_num)
  have hp2 : 0 < Real.exp (-2) := Real.exp_pos _
  have hp128 : 0 < Real.exp (-(32 / 25)) := Real.exp_pos _
  norm_num at h08u h08l h32l h32u h72l h72u h128u h2u ⊢
  constructor <;> linarith

/-- C9: for the UShape (bidask) strategy with `numBins >= 5`, each extreme
bin has strictly greater raw pre-normalization weight than every interior
bin. -/
theorem claim9_ushape_extremes (n i : ℕ) (hn : 5 ≤ n) (h0 : 0 < i) (hi : i < n - 1) :
    rawWeight .bidask n i < rawWeight .bidask n 0 ∧
    rawWeight .bidask n i < rawWeight .bidask n (n - 1) := by
  have hn5 : (5 : ℝ) ≤ (n : ℝ) := by exact_mod_cast hn
  have hc : (0 : ℝ) < ((n : ℝ) - 1) / 2 := by linarith
  have hi1 : (1 : ℝ) ≤ (i : ℝ) := by exact_mod_cast h0
  have hi2 : (i : ℝ) ≤ (n : ℝ) - 2 := by
    have hle : i ≤ n - 2 := by omega
    have h2 : ((i : ℕ) : ℝ) ≤ ((n - 2 : ℕ) : ℝ) := by exact_mod_cast hle
    rwa [Nat.cast_sub (by omega), Nat.cast_ofNat] at h2
  have hq1 : ((i : ℝ) - ((n : ℝ) - 1) / 2) / (((n : ℝ) - 1) / 2) < 1 := by
    rw [div_lt_one hc]
    linarith
  have hq2 : -1 < ((i : ℝ) - ((n : ℝ) - 1) / 2) / (((n : ℝ) - 1) / 2) := by
    rw [lt_div_iff₀ hc]
    linarith
  have hsq : ((i : ℝ) - ((n : ℝ) - 1) / 2) / (((n : ℝ) - 1) / 2) *
      (((i : ℝ) - ((n : ℝ) - 1) / 2) / (((n : ℝ) - 1) / 2)) < 1 := by nlinarith
  have h_zero : rawWeight .bidask n 0 = 1 + 0.1 := by
    simp only [rawWeight]
    rw [Nat.cast_zero, zero_sub, neg_div, div_self hc.ne']
    norm_num
  have h_last : rawWeight .bidask n (n - 1) = 1 + 0.1 := by
    simp only [rawWeight]
    rw [Nat.cast_sub (by omega), Nat.cast_one]
    have e : ((n : ℝ) - 1 - ((n : ℝ) - 1) / 2) / (((n : ℝ) - 1) / 2) = 1 := by
      rw [show (n : ℝ) - 1 - ((n : ℝ) - 1) / 2 = ((n : ℝ) - 1) / 2 by ring]
      exact div_self hc.ne'
    rw [e]
    norm_num
  constructor
  · rw [h_zero]
    simp only [rawWeight]
    norm_num
    linarith
  · rw [h_last]
    simp only [rawWeight]
    norm_num
    linarith

/-- Witness for C9 at `numBins = 10` and interior index 3. -/
theorem claim9_ushape_extremes_witness :
    (5 : ℕ) ≤ 10 ∧ (0 : ℕ) < 3 ∧ (3 : ℕ) < 10 - 1 ∧
    (rawWeight .bidask 10 3 < rawWeight .bidask 10 0 ∧
     rawWeight .bidask 10 3 < rawWeight .bidask 10 (10 - 1)) :=
  ⟨by norm_num, by norm_num, by norm_num,
    claim9_ushape_extremes 10 3 (by norm_num) (by norm_num) (by norm_num)⟩

/-- C10: the planner is a pure function of the strategy value: two
invocations with equal inputs return component-wise identical plans.  In this
embedding `getDistribution` is a mathematical function, reflecting that the
source computation (lines 245-372) reads only its `strategy` input and local
constants and performs no effects. -/
theorem claim10_deterministic (s t : StrategyType) (h : s = t) :
    (getDistribution s).deltaIds = (getDistribution t).deltaIds ∧
    (getDistribution s).distributionX = (getDistribution t).distributionX ∧
    (getDistribution s).distributionY = (getDistribution t).distributionY := by
  subst h
  exact ⟨rfl, rfl, rfl⟩

/-- Witness for C10 at two invocations on the spot strategy. -/
theorem claim10_deterministic_witness :
    StrategyType.spot = StrategyType.spot ∧
    ((getDistribution .spot).deltaIds = (getDistribution .spot).deltaIds ∧
     (getDistribution .spot).distributionX = (getDistribution .spot).distributionX ∧
     (getDistribution .spot).distributionY = (getDistribution .spot).distributionY) :=
  ⟨rfl, claim10_deterministic .spot .spot rfl⟩
